import Mathlib

/-!
Verification of the citation-URL resolution subsystem of the dihac
repository, together with the law-rendering guards of its web and mobile
case-analysis views.

The resolver (`generate_law_url` in the backend, called `resolve` in the
spec) is present in the repository only through its documentation; its
Python implementation file is not part of the source tree.  The
definitions in the `Resolver` namespace are therefore modelled from the
spec (section 4.1 of spec.md and the documentation in the repository's
legal-statute-linking document), as faithfully as its words allow.  The
rendering guards (`Render` namespace) are embedded directly from
`frontend/src/components/CaseAnalysis.js` and
`mobile/src/screens/CaseAnalysisScreen.js`.
-/

namespace Resolver

/-- Shorthand: the character list of a string literal. -/
def str (s : String) : List Char := s.data

/-- Whitespace characters recognised by the normalizer. -/
def isWs (c : Char) : Bool := c = ' ' || c = '\t' || c = '\n' || c = '\r'

/-- ASCII lower-casing of a single character. -/
def lowerC (c : Char) : Char :=
  if 65 ≤ c.toNat && c.toNat ≤ 90 then Char.ofNat (c.toNat + 32) else c

/-- ASCII decimal digit test. -/
def isDigitC (c : Char) : Bool := 48 ≤ c.toNat && c.toNat ≤ 57

/-- Modelled from the spec: the character class of digits, ASCII letters,
dot, dash and slash that a section number must stay inside (spec 4.1,
tie-break policies). -/
def validSecChar (c : Char) : Bool :=
  isDigitC c || (97 ≤ c.toNat && c.toNat ≤ 122) || (65 ≤ c.toNat && c.toNat ≤ 90)
    || c = '.' || c = '-' || c = '/'

/-- A token usable as a URL path/query slot: non-empty and inside the
valid section character class. -/
def validTok (l : List Char) : Bool := !l.isEmpty && l.all validSecChar

/-- A token made of decimal digits only (title numbers, ILCS chapters). -/
def isNumTok (l : List Char) : Bool := !l.isEmpty && l.all isDigitC

/-- Lower-case every character. -/
def lowerAll (cs : List Char) : List Char := cs.map lowerC

/-- Modelled from the spec: the section symbol is detached into its own
token so that `§187` and `§ 187` normalise alike (spec 4.1 step 1). -/
def expandSect : List Char → List Char
  | [] => []
  | c :: cs => (if c = '§' then [' ', '§', ' '] else [c]) ++ expandSect cs

/-- Whitespace tokenizer with an explicit accumulator (the accumulator
holds the current token reversed); collapses runs of whitespace. -/
def splitWsA : List Char → List Char → List (List Char)
  | [], acc => if acc.isEmpty then [] else [acc.reverse]
  | c :: cs, acc =>
    if isWs c then
      (if acc.isEmpty then splitWsA cs [] else acc.reverse :: splitWsA cs [])
    else splitWsA cs (c :: acc)

/-- Modelled from the spec: unify the section-symbol variants `Sec.` and
`Section` with `§` into a single internal token (spec 4.1 step 1). -/
def fixMarker (t : List Char) : List Char :=
  if t = str "sec." || t = str "section" then ['§'] else t

/-- Modelled from the spec: full normalisation pipeline — trim and
collapse whitespace, lower-case for keyword matching, detach and unify
the section symbol (spec 4.1 step 1). -/
def toks (s : String) : List (List Char) :=
  (splitWsA (expandSect (lowerAll s.data)) []).map fixMarker

/-- The internal section-symbol token after normalisation. -/
def sectTok : List Char := ['§']

/-- Raw section extraction after a matched code keyword: skip one
optional section-symbol token and take the next token, without
validating its characters. -/
def secRaw : List (List Char) → Option (List Char)
  | [] => none
  | t :: rest =>
    if t = sectTok then
      match rest with
      | [] => none
      | t2 :: _ => some t2
    else some t

/-- Modelled from the spec: validated section extraction — a raw section
containing characters outside the valid class is a parse failure
(spec 4.1, tie-break policies). -/
def secOf (ts : List (List Char)) : Option (List Char) :=
  (secRaw ts).bind (fun s => if validTok s then some s else none)

/-- The accepted spellings of the U.S. Code marker token
(spec 4.1 step 2: `USC`, `U.S.C.`). -/
def uscMarkers : List (List Char) := [str "usc", str "u.s.c.", str "u.s.c"]

/-- Recognise a code-marker occurrence at the head of a token list:
either one of the USC marker spellings, or the three-token spelling
`united states code`; returns the tokens after the marker. -/
def markerTail : List (List Char) → Option (List (List Char))
  | [] => none
  | m :: rest =>
    if uscMarkers.contains m then some rest
    else if m = str "united" then
      match rest with
      | b :: c :: rest3 =>
        if b = str "states" && c = str "code" then some rest3 else none
      | _ => none
    else none

/-- One attempted U.S. Code match anchored at a candidate title-number
token: the token must be numeric, followed by a code marker, an optional
section symbol and a valid section. -/
def uscHere (t : List Char) (rest : List (List Char)) :
    Option (List Char × List Char) :=
  if isNumTok t then
    match markerTail rest with
    | some after =>
      match secOf after with
      | some sec => some (t, sec)
      | none => none
    | none => none
  else none

/-- Modelled from the spec: scan for the first U.S. Code citation
`<title_number> USC [§] <section>` (spec 4.1 step 2). -/
def uscScan : List (List Char) → Option (List Char × List Char)
  | [] => none
  | t :: rest =>
    match uscHere t rest with
    | some r => some r
    | none => uscScan rest

/-- One attempted CFR match anchored at a candidate title-number token. -/
def cfrHere (t : List Char) (rest : List (List Char)) :
    Option (List Char × List Char) :=
  if isNumTok t then
    match rest with
    | k :: after =>
      if k = str "cfr" then
        match secOf after with
        | some sec => some (t, sec)
        | none => none
      else none
    | [] => none
  else none

/-- Modelled from the spec: scan for the first CFR citation
`<title_number> CFR <part.section>` (spec 4.1 step 2). -/
def cfrScan : List (List Char) → Option (List Char × List Char)
  | [] => none
  | t :: rest =>
    match cfrHere t rest with
    | some r => some r
    | none => cfrScan rest

/-- The recognised states of the jurisdiction table (spec 4.1 step 3). -/
inductive USState
  | california
  | newyork
  | texas
  | florida
  | illinois
deriving DecidableEq, Repr

/-- Display name of a recognised state, used as the jurisdiction field. -/
def stateName : USState → String
  | .california => "California"
  | .newyork => "New York"
  | .texas => "Texas"
  | .florida => "Florida"
  | .illinois => "Illinois"

/-- Keyword token sequence that identifies each state in a citation. -/
def stateKw : USState → List (List Char)
  | .california => [str "california"]
  | .newyork => [str "new", str "york"]
  | .texas => [str "texas"]
  | .florida => [str "florida"]
  | .illinois => [str "illinois"]

/-- Modelled from the spec: each recognised state's generic statute
homepage, the target of the recognised-state fallback (spec 4.1 step 3
and the repository's statute-linking document). -/
def stateHomepage : USState → List Char
  | .california => str "https://leginfo.legislature.ca.gov/"
  | .newyork => str "https://www.nysenate.gov/legislation/laws"
  | .texas => str "https://statutes.capitol.texas.gov/"
  | .florida => str "http://www.leg.state.fl.us/statutes/"
  | .illinois => str "https://www.ilga.gov/legislation/ilcs/ilcs.asp"

/-- Does one of the recognised states' keyword sequences start here? -/
def stateAt (ts : List (List Char)) : Option USState :=
  match ts with
  | a :: rest =>
    if a = str "california" then some .california
    else if a = str "texas" then some .texas
    else if a = str "florida" then some .florida
    else if a = str "illinois" then some .illinois
    else
      match rest with
      | b :: _ => if a = str "new" && b = str "york" then some .newyork else none
      | [] => none
  | [] => none

/-- Modelled from the spec: left-to-right scan of the token list; the
first state keyword encountered by scan order wins (spec 4.1, tie-break
policies). -/
def stateScan : List (List Char) → Option USState
  | [] => none
  | t :: rest =>
    match stateAt (t :: rest) with
    | some st => some st
    | none => stateScan rest

/-- Find an adjacent two-token keyword pair; returns the suffix after it. -/
def findKw2 (a b : List Char) : List (List Char) → Option (List (List Char))
  | [] => none
  | [_] => none
  | x :: y :: rest =>
    if x = a && y = b then some rest else findKw2 a b (y :: rest)

/-- Find a single-token keyword; returns the suffix after it. -/
def findKw1 (a : List Char) : List (List Char) → Option (List (List Char))
  | [] => none
  | x :: rest => if x = a then some rest else findKw1 a rest

/-- Split a token at its first slash into `(before, after)`. -/
def splitSl : List Char → List Char → Option (List Char × List Char)
  | [], _ => none
  | c :: cs, acc => if c = '/' then some (acc.reverse, cs) else splitSl cs (c :: acc)

/-- One attempted ILCS match anchored at a candidate chapter token:
`<chapter> ILCS <act>/<section>`, the chapter numeric and the act and
section validated; any slot failing validation is a parse failure. -/
def ilcsHere (t : List Char) (rest : List (List Char)) :
    Option (List Char × List Char × List Char) :=
  match rest with
  | k :: rest2 =>
    if isNumTok t && k = str "ilcs" then
      match rest2 with
      | compound :: _ =>
        match splitSl compound [] with
        | some (act, sec) =>
          if isNumTok act && validTok sec then some (t, act, sec) else none
        | none => none
      | [] => none
    else none
  | [] => none

/-- Modelled from the spec: scan for the first ILCS compound citation
`<chapter> ILCS <act>/<section>` (spec 4.1 step 3, glossary). -/
def ilcsScan : List (List Char) → Option (List Char × List Char × List Char)
  | [] => none
  | t :: rest =>
    match ilcsHere t rest with
    | some r => some r
    | none => ilcsScan rest

/-- Modelled from the spec: the per-state code-family tables.  Each entry
recognises a code-type keyword and builds the deep-link URL from the
validated section (spec 4.1 step 3 and the statute-linking document's
URL examples).  Returns `none` when no code family of the state matches
or its section fails validation. -/
def stateCodeUrl (st : USState) (ts : List (List Char)) : Option (List Char) :=
  match st with
  | .california =>
    match findKw2 (str "penal") (str "code") ts with
    | some suf =>
      (secOf suf).map (fun sec =>
        str "https://leginfo.legislature.ca.gov/faces/codes_displaySection.xhtml?lawCode=PEN&sectionNum=" ++ sec)
    | none =>
      match findKw2 (str "civil") (str "code") ts with
      | some suf =>
        (secOf suf).map (fun sec =>
          str "https://leginfo.legislature.ca.gov/faces/codes_displaySection.xhtml?lawCode=CIV&sectionNum=" ++ sec)
      | none =>
        match findKw2 (str "vehicle") (str "code") ts with
        | some suf =>
          (secOf suf).map (fun sec =>
            str "https://leginfo.legislature.ca.gov/faces/codes_displaySection.xhtml?lawCode=VEH&sectionNum=" ++ sec)
        | none => none
  | .newyork =>
    match findKw2 (str "penal") (str "law") ts with
    | some suf =>
      (secOf suf).map (fun sec =>
        str "https://www.nysenate.gov/legislation/laws/PEN/" ++ sec)
    | none => none
  | .texas =>
    match findKw2 (str "penal") (str "code") ts with
    | some suf =>
      (secOf suf).map (fun sec =>
        str "https://statutes.capitol.texas.gov/Docs/PE/htm/PE." ++ sec ++ str ".htm")
    | none => none
  | .florida =>
    match findKw1 (str "statute") ts with
    | some suf =>
      (secOf suf).map (fun sec =>
        str "http://www.leg.state.fl.us/statutes/index.cfm?App_mode=Display_Statute&Search_String=" ++ sec)
    | none =>
      match findKw1 (str "statutes") ts with
      | some suf =>
        (secOf suf).map (fun sec =>
          str "http://www.leg.state.fl.us/statutes/index.cfm?App_mode=Display_Statute&Search_String=" ++ sec)
      | none => none
  | .illinois =>
    match findKw2 (str "compiled") (str "statutes") ts with
    | some _ =>
      (ilcsScan ts).map (fun r =>
        str "https://www.ilga.gov/legislation/ilcs/ilcs.asp?chapter=" ++ r.1
          ++ str "&act=" ++ r.2.1 ++ str "&sec=" ++ r.2.2)
    | none => none

/-- Does the token list contain a federal code keyword (a USC marker
spelling, `cfr`, or the spelled-out `united states code`)? -/
def hasFedKw (ts : List (List Char)) : Bool :=
  ts.any (fun t => uscMarkers.contains t || t = str "cfr")
    || (findKw2 (str "united") (str "states") ts).isSome

/-- Hexadecimal digit character (uppercase) for a value below 16. -/
def hexDig (n : Nat) : Char :=
  if n < 10 then Char.ofNat (48 + n) else Char.ofNat (55 + n)

/-- UTF-8 bytes of a unicode code point. -/
def utf8Bytes (n : Nat) : List Nat :=
  if n < 128 then [n]
  else if n < 2048 then [192 + n / 64, 128 + n % 64]
  else if n < 65536 then [224 + n / 4096, 128 + (n / 64) % 64, 128 + n % 64]
  else [240 + n / 262144, 128 + (n / 4096) % 64, 128 + (n / 64) % 64, 128 + n % 64]

/-- Unreserved URL characters, kept verbatim by percent-encoding. -/
def unreservedC (c : Char) : Bool :=
  isDigitC c || (97 ≤ c.toNat && c.toNat ≤ 122) || (65 ≤ c.toNat && c.toNat ≤ 90)
    || c = '-' || c = '_' || c = '.' || c = '~'

/-- Percent escape of a single byte. -/
def hexByte (b : Nat) : List Char := ['%', hexDig (b / 16), hexDig (b % 16)]

/-- Percent escapes of a byte sequence. -/
def hexBytes : List Nat → List Char
  | [] => []
  | b :: bs => hexByte b ++ hexBytes bs

/-- Percent-encode one character (UTF-8, uppercase hex). -/
def pcChar (c : Char) : List Char :=
  if unreservedC c then [c] else hexBytes (utf8Bytes c.toNat)

/-- Modelled from the spec: percent-encoding of free text for inclusion
in a fallback search query (spec 4.1, tie-break policies). -/
def pcEncode : List Char → List Char
  | [] => []
  | c :: cs => pcChar c ++ pcEncode cs

/-- The output record of the resolver (spec section 3). -/
structure ResolvedCitation where
  title : String
  url : String
  jurisdiction : String
  isFallback : Bool
deriving DecidableEq, Repr

/-- USC deep-link URL (spec 4.1 step 2). -/
def uscUrl (t sec : List Char) : List Char :=
  str "https://www.law.cornell.edu/uscode/text/" ++ t ++ '/' :: sec

/-- CFR deep-link URL (spec 4.1 step 2). -/
def cfrUrl (t sec : List Char) : List Char :=
  str "https://www.law.cornell.edu/cfr/text/" ++ t ++ '/' :: sec

/-- Cornell LII full-text search URL over the citation text
(spec 4.1 step 4). -/
def cornellSearchUrl (cs : List Char) : List Char :=
  str "https://www.law.cornell.edu/search/site/" ++ pcEncode cs

/-- Modelled from the spec: `resolve` — the whole citation resolver,
an ordered first-match-wins dispatch (spec 4.1 steps 1–5).  The Python
implementation (`generate_law_url`) is absent from the source tree; this
definition follows the spec's algorithm word by word. -/
def resolve (s : String) : ResolvedCitation :=
  let ts := toks s
  match uscScan ts with
  | some (t, sec) => ⟨s, String.mk (uscUrl t sec), "federal", false⟩
  | none =>
    match cfrScan ts with
    | some (t, sec) => ⟨s, String.mk (cfrUrl t sec), "federal", false⟩
    | none =>
      match stateScan ts with
      | some st =>
        match stateCodeUrl st ts with
        | some url => ⟨s, String.mk url, stateName st, false⟩
        | none => ⟨s, String.mk (stateHomepage st), stateName st, true⟩
      | none =>
        if hasFedKw ts then ⟨s, String.mk (cornellSearchUrl s.data), "federal", true⟩
        else ⟨s, String.mk (cornellSearchUrl s.data), "unknown", true⟩

/-- A character acceptable inside an emitted URL: printable ASCII other
than the space — in particular neither a literal space nor `§`. -/
def okUrlChar (c : Char) : Bool := 32 < c.toNat && c.toNat < 127

/-- Does a character list begin with an absolute HTTP or HTTPS scheme? -/
def startsHttp : List Char → Bool
  | 'h' :: 't' :: 't' :: 'p' :: rest =>
    match rest with
    | 's' :: ':' :: '/' :: '/' :: _ => true
    | ':' :: '/' :: '/' :: _ => true
    | _ => false
  | _ => false

/-- A well-formed absolute HTTP(S) URL: an `http://` or `https://` scheme
followed only by printable, non-space, non-`§` ASCII. -/
def wellFormedUrl (u : String) : Bool := startsHttp u.data && u.data.all okUrlChar

/-- Join tokens with single spaces (for building citation strings). -/
def joinSp : List (List Char) → List Char
  | [] => []
  | [t] => t
  | t :: u :: rest => t ++ ' ' :: joinSp (u :: rest)

/-- The citation string spelled from a list of tokens. -/
def mkCit (l : List (List Char)) : String := String.mk (joinSp l)

end Resolver

namespace Render

/-- A law record as stored in the `relevant_laws` table
(`backend/database/init.sql`): `law_title` is NOT NULL, while `law_url`,
`law_code` and `description` are nullable. -/
structure LawRecord where
  law_title : String
  law_code : Option String
  law_url : Option String
  description : Option String
deriving DecidableEq, Repr

/-- JavaScript truthiness of a nullable string field: `null` and the
empty string are falsy, every other string is truthy. -/
def jsTruthy : Option String → Bool
  | none => false
  | some s => !(s = "")

/-- One rendered element of a law list item. -/
inductive RPart
  | lawTitle (s : String)
  | codeChip (s : String)
  | viewLawLink (url : String)
  | descText (s : String)
deriving DecidableEq, Repr

/-- The law list item of the web view
(`frontend/src/components/CaseAnalysis.js`): the title is always
rendered; the code chip renders under `law.law_code &&`; the "View Law"
hyperlink renders under `law.law_url &&`; the description is passed to
the item's secondary text unconditionally. -/
def renderLawWeb (law : LawRecord) : List RPart :=
  [RPart.lawTitle law.law_title]
    ++ (if jsTruthy law.law_code then [RPart.codeChip (law.law_code.getD "")] else [])
    ++ (if jsTruthy law.law_url then [RPart.viewLawLink (law.law_url.getD "")] else [])
    ++ [RPart.descText (law.description.getD "")]

/-- The law list item of the mobile view
(`mobile/src/screens/CaseAnalysisScreen.js`): the title is always
rendered; code, description and the "View Law" link each render under a
`&&` truthiness guard. -/
def renderLawMobile (law : LawRecord) : List RPart :=
  [RPart.lawTitle law.law_title]
    ++ (if jsTruthy law.law_code then [RPart.codeChip (law.law_code.getD "")] else [])
    ++ (if jsTruthy law.description then [RPart.descText (law.description.getD "")] else [])
    ++ (if jsTruthy law.law_url then [RPart.viewLawLink (law.law_url.getD "")] else [])

/-- Is a part the "View Law" hyperlink? -/
def isViewLawLink : RPart → Bool
  | .viewLawLink _ => true
  | _ => false

/-- Does a rendered item contain the "View Law" hyperlink? -/
def hasViewLawLink (parts : List RPart) : Bool := parts.any isViewLawLink

/-- Does a rendered item contain the law title? -/
def hasLawTitle (parts : List RPart) : Bool :=
  parts.any (fun p => match p with | .lawTitle _ => true | _ => false)

/-- Does a rendered item contain the code chip? -/
def hasCodeChip (parts : List RPart) : Bool :=
  parts.any (fun p => match p with | .codeChip _ => true | _ => false)

/-- Does a rendered item contain the description text? -/
def hasDescText (parts : List RPart) : Bool :=
  parts.any (fun p => match p with | .descText _ => true | _ => false)

end Render

namespace Resolver

lemma char_toNat_lt (c : Char) : c.toNat < 1114112 := by
  have h := c.valid
  simp only [UInt32.isValidChar, Nat.isValidChar] at h
  show c.val.toNat < 1114112
  omega

lemma toNat_of_okUrl {c : Char} (h : okUrlChar c = true) :
    32 < c.toNat ∧ c.toNat < 127 := by
  simp only [okUrlChar, Bool.and_eq_true, decide_eq_true_eq] at h
  exact h

lemma ne_sp_of_okUrl {c : Char} (h : okUrlChar c = true) : c ≠ ' ' ∧ c ≠ '§' := by
  constructor <;> rintro rfl <;> simp [okUrlChar] at h

lemma okUrl_of_validSec {c : Char} (h : validSecChar c = true) :
    okUrlChar c = true := by
  simp only [validSecChar, isDigitC, Bool.or_eq_true, Bool.and_eq_true,
    decide_eq_true_eq] at h
  rcases h with ((((h | h) | h) | rfl) | rfl) | rfl
  · simp only [okUrlChar, Bool.and_eq_true, decide_eq_true_eq]; omega
  · simp only [okUrlChar, Bool.and_eq_true, decide_eq_true_eq]; omega
  · simp only [okUrlChar, Bool.and_eq_true, decide_eq_true_eq]; omega
  · decide
  · decide
  · decide

lemma okUrl_of_digit {c : Char} (h : isDigitC c = true) : okUrlChar c = true := by
  apply okUrl_of_validSec
  simp [validSecChar, h]

lemma okUrl_of_unreserved {c : Char} (h : unreservedC c = true) :
    okUrlChar c = true := by
  simp only [unreservedC, isDigitC, Bool.or_eq_true, Bool.and_eq_true,
    decide_eq_true_eq] at h
  rcases h with (((((h | h) | h) | rfl) | rfl) | rfl) | rfl
  · simp only [okUrlChar, Bool.and_eq_true, decide_eq_true_eq]; omega
  · simp only [okUrlChar, Bool.and_eq_true, decide_eq_true_eq]; omega
  · simp only [okUrlChar, Bool.and_eq_true, decide_eq_true_eq]; omega
  · decide
  · decide
  · decide
  · decide

lemma okUrl_hexDig : ∀ n, n < 16 → okUrlChar (hexDig n) = true := by decide

lemma utf8Bytes_lt {n b : Nat} (hn : n < 1114112) (hb : b ∈ utf8Bytes n) :
    b < 256 := by
  unfold utf8Bytes at hb
  split at hb
  · simp only [List.mem_singleton] at hb; omega
  · split at hb
    · simp only [List.mem_cons, List.not_mem_nil, or_false] at hb
      rcases hb with rfl | rfl <;> omega
    · split at hb
      · simp only [List.mem_cons, List.not_mem_nil, or_false] at hb
        rcases hb with rfl | rfl | rfl <;> omega
      · simp only [List.mem_cons, List.not_mem_nil, or_false] at hb
        rcases hb with rfl | rfl | rfl | rfl <;> omega

lemma hexBytes_ok {bs : List Nat} (h : ∀ b ∈ bs, b < 256) :
    (hexBytes bs).all okUrlChar = true := by
  induction bs with
  | nil => rfl
  | cons b bs ih =>
    have hb := h b (List.mem_cons_self b bs)
    simp only [hexBytes, hexByte, List.all_append, List.all_cons, List.all_nil,
      Bool.and_eq_true]
    refine ⟨⟨by decide, okUrl_hexDig _ (by omega), okUrl_hexDig _ (by omega), trivial⟩, ?_⟩
    exact ih (fun x hx => h x (List.mem_cons_of_mem b hx))

lemma pcChar_ok (c : Char) : (pcChar c).all okUrlChar = true := by
  unfold pcChar
  split
  · simp only [List.all_cons, List.all_nil, Bool.and_eq_true]
    exact ⟨okUrl_of_unreserved (by assumption), trivial⟩
  · exact hexBytes_ok (fun b hb => utf8Bytes_lt (char_toNat_lt c) hb)

lemma pcEncode_ok (cs : List Char) : (pcEncode cs).all okUrlChar = true := by
  induction cs with
  | nil => rfl
  | cons c cs ih =>
    simp only [pcEncode, List.all_append, Bool.and_eq_true]
    exact ⟨pcChar_ok c, ih⟩

lemma all_ok_of_valid {l : List Char} (h : l.all validSecChar = true) :
    l.all okUrlChar = true := by
  simp only [List.all_eq_true] at h ⊢
  exact fun c hc => okUrl_of_validSec (h c hc)

lemma all_ok_of_digits {l : List Char} (h : l.all isDigitC = true) :
    l.all okUrlChar = true := by
  simp only [List.all_eq_true] at h ⊢
  exact fun c hc => okUrl_of_digit (h c hc)

lemma validTok_parts {l : List Char} (h : validTok l = true) :
    l ≠ [] ∧ l.all validSecChar = true := by
  simp only [validTok, Bool.and_eq_true, Bool.not_eq_true'] at h
  refine ⟨?_, h.2⟩
  intro hnil
  subst hnil
  simp at h

lemma isNumTok_parts {l : List Char} (h : isNumTok l = true) :
    l ≠ [] ∧ l.all isDigitC = true := by
  simp only [isNumTok, Bool.and_eq_true, Bool.not_eq_true'] at h
  refine ⟨?_, h.2⟩
  intro hnil
  subst hnil
  simp at h

lemma secOf_valid {ts : List (List Char)} {sec : List Char}
    (h : secOf ts = some sec) : validTok sec = true := by
  unfold secOf at h
  cases hr : secRaw ts with
  | none => rw [hr] at h; simp at h
  | some s0 =>
    rw [hr] at h
    simp only [Option.some_bind] at h
    split at h
    · cases h; assumption
    · simp at h

lemma uscHere_valid {t : List Char} {rest : List (List Char)}
    {t2 sec : List Char} (h : uscHere t rest = some (t2, sec)) :
    isNumTok t2 = true ∧ validTok sec = true := by
  unfold uscHere at h
  split at h
  · split at h
    · split at h
      · cases h
        exact ⟨by assumption, secOf_valid (by assumption)⟩
      · simp at h
    · simp at h
  · simp at h

lemma uscScan_valid {ts : List (List Char)} {t sec : List Char}
    (h : uscScan ts = some (t, sec)) :
    isNumTok t = true ∧ validTok sec = true := by
  induction ts with
  | nil => simp [uscScan] at h
  | cons a rest ih =>
    unfold uscScan at h
    split at h
    · cases h
      exact uscHere_valid (by assumption)
    · exact ih h

lemma cfrHere_valid {t : List Char} {rest : List (List Char)}
    {t2 sec : List Char} (h : cfrHere t rest = some (t2, sec)) :
    isNumTok t2 = true ∧ validTok sec = true := by
  unfold cfrHere at h
  split at h
  · split at h
    · split at h
      · split at h
        · cases h
          exact ⟨by assumption, secOf_valid (by assumption)⟩
        · simp at h
      · simp at h
    · simp at h
  · simp at h

lemma cfrScan_valid {ts : List (List Char)} {t sec : List Char}
    (h : cfrScan ts = some (t, sec)) :
    isNumTok t = true ∧ validTok sec = true := by
  induction ts with
  | nil => simp [cfrScan] at h
  | cons a rest ih =>
    unfold cfrScan at h
    split at h
    · cases h
      exact cfrHere_valid (by assumption)
    · exact ih h

lemma ilcsHere_valid {t : List Char} {rest : List (List Char)}
    {c a s : List Char} (h : ilcsHere t rest = some (c, a, s)) :
    isNumTok c = true ∧ isNumTok a = true ∧ validTok s = true := by
  unfold ilcsHere at h
  split at h
  · split at h
    · rename_i hcond
      split at h
      · split at h
        · split at h
          · rename_i hval
            cases h
            simp only [Bool.and_eq_true] at hcond hval
            exact ⟨hcond.1, hval.1, hval.2⟩
          · simp at h
        · simp at h
      · simp at h
    · simp at h
  · simp at h

lemma ilcsScan_valid {ts : List (List Char)} {c a s : List Char}
    (h : ilcsScan ts = some (c, a, s)) :
    isNumTok c = true ∧ isNumTok a = true ∧ validTok s = true := by
  induction ts with
  | nil => simp [ilcsScan] at h
  | cons t rest ih =>
    unfold ilcsScan at h
    split at h
    · cases h
      exact ilcsHere_valid (by assumption)
    · exact ih h

lemma wf_of_parts {u : List Char} (h1 : startsHttp u = true)
    (h2 : u.all okUrlChar = true) : wellFormedUrl (String.mk u) = true := by
  simp only [wellFormedUrl, Bool.and_eq_true]
  exact ⟨h1, h2⟩

lemma sec_slot_ok {sec : List Char} (h : validTok sec = true) :
    sec.all okUrlChar = true := all_ok_of_valid (validTok_parts h).2

lemma num_slot_ok {t : List Char} (h : isNumTok t = true) :
    t.all okUrlChar = true := all_ok_of_digits (isNumTok_parts h).2

lemma stateCodeUrl_wf {st : USState} {ts : List (List Char)} {u : List Char}
    (h : stateCodeUrl st ts = some u) :
    startsHttp u = true ∧ u.all okUrlChar = true := by
  cases st <;> unfold stateCodeUrl at h
  case california =>
    rcases hf : findKw2 (str "penal") (str "code") ts with _ | suf <;> rw [hf] at h
    case' some =>
      simp only [Option.map_eq_some'] at h
      obtain ⟨sec, hsec, rfl⟩ := h
      exact ⟨rfl, by
        simp only [List.all_append, Bool.and_eq_true]
        exact ⟨by decide, sec_slot_ok (secOf_valid hsec)⟩⟩
    rcases hf2 : findKw2 (str "civil") (str "code") ts with _ | suf <;> rw [hf2] at h
    case' some =>
      simp only [Option.map_eq_some'] at h
      obtain ⟨sec, hsec, rfl⟩ := h
      exact ⟨rfl, by
        simp only [List.all_append, Bool.and_eq_true]
        exact ⟨by decide, sec_slot_ok (secOf_valid hsec)⟩⟩
    rcases hf3 : findKw2 (str "vehicle") (str "code") ts with _ | suf <;> rw [hf3] at h
    case' some =>
      simp only [Option.map_eq_some'] at h
      obtain ⟨sec, hsec, rfl⟩ := h
      exact ⟨rfl, by
        simp only [List.all_append, Bool.and_eq_true]
        exact ⟨by decide, sec_slot_ok (secOf_valid hsec)⟩⟩
    simp at h
  case newyork =>
    rcases hf : findKw2 (str "penal") (str "law") ts with _ | suf <;> rw [hf] at h
    · simp at h
    · simp only [Option.map_eq_some'] at h
      obtain ⟨sec, hsec, rfl⟩ := h
      exact ⟨rfl, by
        simp only [List.all_append, Bool.and_eq_true]
        exact ⟨by decide, sec_slot_ok (secOf_valid hsec)⟩⟩
  case texas =>
    rcases hf : findKw2 (str "penal") (str "code") ts with _ | suf <;> rw [hf] at h
    · simp at h
    · simp only [Option.map_eq_some'] at h
      obtain ⟨sec, hsec, rfl⟩ := h
      refine ⟨rfl, ?_⟩
      simp only [List.all_append, Bool.and_eq_true]
      exact ⟨⟨by decide, sec_slot_ok (secOf_valid hsec)⟩, by decide⟩
  case florida =>
    rcases hf : findKw1 (str "statute") ts with _ | suf <;> rw [hf] at h
    case' some =>
      simp only [Option.map_eq_some'] at h
      obtain ⟨sec, hsec, rfl⟩ := h
      exact ⟨rfl, by
        simp only [List.all_append, Bool.and_eq_true]
        exact ⟨by decide, sec_slot_ok (secOf_valid hsec)⟩⟩
    rcases hf2 : findKw1 (str "statutes") ts with _ | suf <;> rw [hf2] at h
    case' some =>
      simp only [Option.map_eq_some'] at h
      obtain ⟨sec, hsec, rfl⟩ := h
      exact ⟨rfl, by
        simp only [List.all_append, Bool.and_eq_true]
        exact ⟨by decide, sec_slot_ok (secOf_valid hsec)⟩⟩
    simp at h
  case illinois =>
    rcases hf : findKw2 (str "compiled") (str "statutes") ts with _ | suf <;> rw [hf] at h
    · simp at h
    · simp only [Option.map_eq_some'] at h
      obtain ⟨r, hr, rfl⟩ := h
      obtain ⟨c, a, s⟩ := r
      obtain ⟨hc, ha, hs⟩ := ilcsScan_valid hr
      refine ⟨rfl, ?_⟩
      simp only [List.all_append, Bool.and_eq_true]
      exact ⟨⟨⟨⟨⟨by decide, num_slot_ok hc⟩, by decide⟩, num_slot_ok ha⟩, by decide⟩,
        sec_slot_ok hs⟩

lemma cornellSearchUrl_wf (cs : List Char) :
    startsHttp (cornellSearchUrl cs) = true
      ∧ (cornellSearchUrl cs).all okUrlChar = true := by
  refine ⟨rfl, ?_⟩
  simp only [cornellSearchUrl, List.all_append, Bool.and_eq_true]
  exact ⟨by decide, pcEncode_ok cs⟩

lemma stateHomepage_wf (st : USState) :
    startsHttp (stateHomepage st) = true
      ∧ (stateHomepage st).all okUrlChar = true := by
  cases st <;> exact ⟨by decide, by decide⟩

/-- The central totality lemma: every resolved URL is well-formed. -/
lemma resolve_wf (s : String) : wellFormedUrl (resolve s).url = true := by
  unfold resolve
  rcases husc : uscScan (toks s) with _ | ⟨t, sec⟩
  · simp only [husc]
    rcases hcfr : cfrScan (toks s) with _ | ⟨t, sec⟩
    · simp only [hcfr]
      rcases hst : stateScan (toks s) with _ | st
      · simp only [hst]
        split <;>
          exact wf_of_parts (cornellSearchUrl_wf s.data).1 (cornellSearchUrl_wf s.data).2
      · simp only [hst]
        rcases hcode : stateCodeUrl st (toks s) with _ | u
        · simp only [hcode]
          exact wf_of_parts (stateHomepage_wf st).1 (stateHomepage_wf st).2
        · simp only [hcode]
          obtain ⟨h1, h2⟩ := stateCodeUrl_wf hcode
          exact wf_of_parts h1 h2
    · simp only [hcfr]
      obtain ⟨ht, hsec⟩ := cfrScan_valid hcfr
      refine wf_of_parts rfl ?_
      simp only [cfrUrl, List.all_append, List.all_cons, Bool.and_eq_true]
      exact ⟨⟨by decide, num_slot_ok ht⟩, by decide, sec_slot_ok hsec⟩
  · simp only [husc]
    obtain ⟨ht, hsec⟩ := uscScan_valid husc
    refine wf_of_parts rfl ?_
    simp only [uscUrl, List.all_append, List.all_cons, Bool.and_eq_true]
    exact ⟨⟨by decide, num_slot_ok ht⟩, by decide, sec_slot_ok hsec⟩

lemma wf_ne_empty {u : String} (h : wellFormedUrl u = true) : u ≠ "" := by
  intro he
  subst he
  simp [wellFormedUrl, startsHttp] at h

lemma splitWsA_tok : ∀ (tok cs acc : List Char),
    tok.all (fun c => !isWs c) = true →
    splitWsA (tok ++ cs) acc = splitWsA cs (tok.reverse ++ acc) := by
  intro tok
  induction tok with
  | nil => intro cs acc _; simp
  | cons c tok ih =>
    intro cs acc h
    simp only [List.all_cons, Bool.and_eq_true, Bool.not_eq_true'] at h
    rw [List.cons_append]
    rw [show splitWsA (c :: (tok ++ cs)) acc = splitWsA (tok ++ cs) (c :: acc) from by
      simp [splitWsA, h.1]]
    rw [ih cs (c :: acc) h.2]
    simp

lemma splitWsA_sp (cs : List Char) : splitWsA (' ' :: cs) [] = splitWsA cs [] := by
  simp [splitWsA, isWs]

lemma splitWsA_flush (cs acc : List Char) (h : acc ≠ []) :
    splitWsA (' ' :: cs) acc = acc.reverse :: splitWsA cs [] := by
  have he : acc.isEmpty = false := by
    cases acc with
    | nil => exact absurd rfl h
    | cons a l => rfl
  simp [splitWsA, isWs, he]

lemma rev_isEmpty_false {t : List Char} (hne : t ≠ []) :
    t.reverse.isEmpty = false := by
  cases hrev : t.reverse with
  | nil => exact absurd (by simpa using congrArg List.reverse hrev) hne
  | cons a l => rfl

lemma splitWsA_single {t : List Char} (hne : t ≠ [])
    (hws : t.all (fun c => !isWs c) = true) : splitWsA t [] = [t] := by
  have h1 := splitWsA_tok t [] [] hws
  rw [List.append_nil, List.append_nil] at h1
  rw [h1]
  simp [splitWsA, rev_isEmpty_false hne]

lemma splitWsA_tok_sp {t : List Char} (cs : List Char) (hne : t ≠ [])
    (hws : t.all (fun c => !isWs c) = true) :
    splitWsA (t ++ ' ' :: cs) [] = t :: splitWsA cs [] := by
  rw [splitWsA_tok t (' ' :: cs) [] hws, List.append_nil,
    splitWsA_flush _ _ (by
      intro hrev
      exact hne (by simpa using congrArg List.reverse hrev))]
  simp

/-- A token is tokenizer-good when it is either the bare section symbol
or a non-empty, whitespace-free, section-symbol-free, lower-case-stable
character list. -/
def goodTok (t : List Char) : Prop :=
  t = ['§'] ∨
    (t ≠ [] ∧ t.all (fun c => !isWs c && !(c = '§')) = true ∧ t.map lowerC = t)

lemma goodTok_ws {t : List Char}
    (h : t.all (fun c => !isWs c && !(c = '§')) = true) :
    t.all (fun c => !isWs c) = true := by
  simp only [List.all_eq_true] at h ⊢
  intro c hc
  have := h c hc
  simp only [Bool.and_eq_true] at this
  exact this.1

lemma goodTok_sect {t : List Char}
    (h : t.all (fun c => !isWs c && !(c = '§')) = true) :
    t.all (fun c => !(c = '§')) = true := by
  simp only [List.all_eq_true] at h ⊢
  intro c hc
  have := h c hc
  simp only [Bool.and_eq_true] at this
  exact this.2

lemma expandSect_nosect {cs : List Char}
    (h : cs.all (fun c => !(c = '§')) = true) : expandSect cs = cs := by
  induction cs with
  | nil => rfl
  | cons c cs ih =>
    simp only [List.all_cons, Bool.and_eq_true, Bool.not_eq_true',
      decide_eq_false_iff_not] at h
    simp only [expandSect, if_neg h.1, List.singleton_append]
    rw [ih h.2]

lemma expandSect_append (a b : List Char) :
    expandSect (a ++ b) = expandSect a ++ expandSect b := by
  induction a with
  | nil => rfl
  | cons c cs ih =>
    rw [List.cons_append]
    show (if c = '§' then [' ', '§', ' '] else [c]) ++ expandSect (cs ++ b) = _
    rw [ih]
    show _ = ((if c = '§' then [' ', '§', ' '] else [c]) ++ expandSect cs) ++ _
    rw [List.append_assoc]

lemma map_lowerC_joinSp (l : List (List Char)) (h : ∀ t ∈ l, t.map lowerC = t) :
    (joinSp l).map lowerC = joinSp l := by
  induction l with
  | nil => rfl
  | cons t rest ih =>
    cases rest with
    | nil => exact h t (List.mem_cons_self t [])
    | cons u rest2 =>
      show (t ++ ' ' :: joinSp (u :: rest2)).map lowerC = _
      rw [List.map_append, List.map_cons]
      rw [h t (List.mem_cons_self t _), show lowerC ' ' = ' ' from rfl,
        ih (fun x hx => h x (List.mem_cons_of_mem t hx))]
      rfl

lemma splitWsA_expandSect_joinSp :
    ∀ l : List (List Char), (∀ t ∈ l, goodTok t) →
      splitWsA (expandSect (joinSp l)) [] = l := by
  intro l
  induction l with
  | nil => intro _; rfl
  | cons t rest ih =>
    intro h
    have ht := h t (List.mem_cons_self t rest)
    have hrest : ∀ x ∈ rest, goodTok x := fun x hx => h x (List.mem_cons_of_mem t hx)
    cases rest with
    | nil =>
      show splitWsA (expandSect t) [] = [t]
      rcases ht with rfl | ⟨hne, hall, _⟩
      · rfl
      · rw [expandSect_nosect (goodTok_sect hall)]
        exact splitWsA_single hne (goodTok_ws hall)
    | cons u rest2 =>
      have step : splitWsA (expandSect (joinSp (t :: u :: rest2))) []
          = t :: splitWsA (expandSect (joinSp (u :: rest2))) [] := by
        rw [show joinSp (t :: u :: rest2) = t ++ ' ' :: joinSp (u :: rest2) from rfl,
          show (t ++ ' ' :: joinSp (u :: rest2)) = t ++ ([' '] ++ joinSp (u :: rest2)) by
            simp,
          expandSect_append, expandSect_append]
        rw [show expandSect [' '] = [' '] from rfl]
        rcases ht with rfl | ⟨hne, hall, _⟩
        · rw [show expandSect ['§'] = [' ', '§', ' '] from rfl]
          show splitWsA
            ([' ', '§', ' '] ++ ([' '] ++ expandSect (joinSp (u :: rest2)))) [] = _
        
          rw [show ([' ', '§', ' '] ++ ([' '] ++ expandSect (joinSp (u :: rest2))))
              = ' ' :: '§' :: ' ' :: ' ' :: expandSect (joinSp (u :: rest2)) by simp]
          rw [splitWsA_sp]
          rw [show splitWsA ('§' :: ' ' :: ' ' :: expandSect (joinSp (u :: rest2))) []
              = splitWsA (' ' :: ' ' :: expandSect (joinSp (u :: rest2))) ['§'] from by
            simp [splitWsA, isWs]]
          rw [splitWsA_flush _ _ (by simp), splitWsA_sp]
          rfl
        · rw [expandSect_nosect (goodTok_sect hall)]
          rw [show (t ++ ([' '] ++ expandSect (joinSp (u :: rest2))))
              = t ++ ' ' :: expandSect (joinSp (u :: rest2)) by simp]
          exact splitWsA_tok_sp _ hne (goodTok_ws hall)
      rw [step, ih hrest]

/-- Tokenising a citation built from good tokens recovers exactly those
tokens (up to the marker rewrite). -/
lemma toks_mkCit (l : List (List Char)) (h : ∀ t ∈ l, goodTok t) :
    toks (mkCit l) = l.map fixMarker := by
  show (splitWsA (expandSect (lowerAll (joinSp l))) []).map fixMarker = _
  rw [show lowerAll (joinSp l) = (joinSp l).map lowerC from rfl,
    map_lowerC_joinSp l (fun t ht => by
      rcases h t ht with rfl | ⟨_, _, hl⟩
      · rfl
      · exact hl),
    splitWsA_expandSect_joinSp l h]

lemma isWs_false_of_okUrl {c : Char} (h : okUrlChar c = true) : isWs c = false := by
  obtain ⟨h1, h2⟩ := toNat_of_okUrl h
  by_contra hws
  rw [Bool.not_eq_false] at hws
  simp only [isWs, Bool.or_eq_true, decide_eq_true_eq] at hws
  rcases hws with ((rfl | rfl) | rfl) | rfl <;> revert h1 <;> decide

lemma sect_false_of_okUrl {c : Char} (h : okUrlChar c = true) :
    decide (c = '§') = false := by
  obtain ⟨h1, h2⟩ := toNat_of_okUrl h
  by_contra hs
  rw [Bool.not_eq_false, decide_eq_true_eq] at hs
  subst hs
  exact absurd h2 (by decide)

lemma goodTok_of_valid {t : List Char} (h : validTok t = true)
    (hl : t.map lowerC = t) : goodTok t := by
  right
  obtain ⟨hne, hall⟩ := validTok_parts h
  refine ⟨hne, ?_, hl⟩
  simp only [List.all_eq_true] at hall ⊢
  intro c hc
  have hok := okUrl_of_validSec (hall c hc)
  simp only [Bool.and_eq_true, Bool.not_eq_true']
  exact ⟨isWs_false_of_okUrl hok, sect_false_of_okUrl hok⟩

lemma validTok_of_num {t : List Char} (h : isNumTok t = true) :
    validTok t = true := by
  obtain ⟨hne, hall⟩ := isNumTok_parts h
  simp only [validTok, Bool.and_eq_true, Bool.not_eq_true']
  constructor
  · cases t with
    | nil => exact absurd rfl hne
    | cons a l => rfl
  · simp only [List.all_eq_true] at hall ⊢
    intro c hc
    simp [validSecChar, hall c hc]

lemma lowerC_digit {c : Char} (h : isDigitC c = true) : lowerC c = c := by
  simp only [isDigitC, Bool.and_eq_true, decide_eq_true_eq] at h
  unfold lowerC
  rw [if_neg]
  simp only [Bool.and_eq_true, decide_eq_true_eq, not_and]
  omega

lemma map_lowerC_of_digits {t : List Char} (h : t.all isDigitC = true) :
    t.map lowerC = t := by
  induction t with
  | nil => rfl
  | cons c l ih =>
    simp only [List.all_cons, Bool.and_eq_true] at h
    rw [List.map_cons, lowerC_digit h.1, ih h.2]

lemma map_lowerC_of_num {t : List Char} (h : isNumTok t = true) :
    t.map lowerC = t := map_lowerC_of_digits (isNumTok_parts h).2

lemma goodTok_of_num {t : List Char} (h : isNumTok t = true) : goodTok t :=
  goodTok_of_valid (validTok_of_num h) (map_lowerC_of_num h)

lemma fixMarker_of_num {t : List Char} (h : isNumTok t = true) :
    fixMarker t = t := by
  unfold fixMarker
  rw [if_neg]
  simp only [Bool.or_eq_true, decide_eq_true_eq, not_or]
  constructor <;> rintro rfl <;> revert h <;> decide

lemma fixMarker_eq {t : List Char} (h1 : t ≠ str "sec.")
    (h2 : t ≠ str "section") : fixMarker t = t := by
  unfold fixMarker
  rw [if_neg]
  simp only [Bool.or_eq_true, decide_eq_true_eq, not_or]
  exact ⟨h1, h2⟩

lemma validTok_ne_sect {sec : List Char} (h : validTok sec = true) :
    sec ≠ sectTok := by
  rintro rfl
  exact absurd h (by decide)

lemma secRaw_cons (t : List Char) (rest : List (List Char)) :
    secRaw (t :: rest)
      = if t = sectTok then
          (match rest with | [] => none | t2 :: _ => some t2)
        else some t := rfl

lemma secOf_direct {sec : List Char} (h : validTok sec = true)
    (rest : List (List Char)) : secOf (sec :: rest) = some sec := by
  unfold secOf
  rw [secRaw_cons, if_neg (validTok_ne_sect h)]
  simp [h]

lemma secOf_sect {sec : List Char} (h : validTok sec = true)
    (rest : List (List Char)) : secOf (sectTok :: sec :: rest) = some sec := by
  unfold secOf
  rw [secRaw_cons, if_pos rfl]
  simp [h]

lemma markerTail_marker {m : List Char} (rest : List (List Char))
    (hm : uscMarkers.contains m = true) : markerTail (m :: rest) = some rest := by
  simp only [markerTail, hm, if_true]

lemma markerTail_united (rest : List (List Char)) :
    markerTail (str "united" :: str "states" :: str "code" :: rest) = some rest := by
  simp only [markerTail]
  rw [show uscMarkers.contains (str "united") = false from by decide]
  simp

lemma uscHere_m {t m sec : List Char} (rest : List (List Char))
    (ht : isNumTok t = true) (hm : uscMarkers.contains m = true)
    (hsec : validTok sec = true) : uscHere t (m :: sec :: rest) = some (t, sec) := by
  simp [uscHere, ht, markerTail_marker _ hm, secOf_direct hsec]

lemma uscHere_m_sect {t m sec : List Char} (rest : List (List Char))
    (ht : isNumTok t = true) (hm : uscMarkers.contains m = true)
    (hsec : validTok sec = true) :
    uscHere t (m :: sectTok :: sec :: rest) = some (t, sec) := by
  simp [uscHere, ht, markerTail_marker _ hm, secOf_sect hsec]

lemma uscHere_united {t sec : List Char} (rest : List (List Char))
    (ht : isNumTok t = true) (hsec : validTok sec = true) :
    uscHere t (str "united" :: str "states" :: str "code" :: sec :: rest)
      = some (t, sec) := by
  simp [uscHere, ht, markerTail_united, secOf_direct hsec]

lemma uscScan_cons_some {t : List Char} {rest : List (List Char)}
    {r : List Char × List Char} (h : uscHere t rest = some r) :
    uscScan (t :: rest) = some r := by
  simp [uscScan, h]

lemma resolve_usc {s : String} {t sec : List Char}
    (h : uscScan (toks s) = some (t, sec)) :
    resolve s = ⟨s, String.mk (uscUrl t sec), "federal", false⟩ := by
  simp only [resolve, h]

lemma resolve_cfr {s : String} {t sec : List Char}
    (h1 : uscScan (toks s) = none) (h2 : cfrScan (toks s) = some (t, sec)) :
    resolve s = ⟨s, String.mk (cfrUrl t sec), "federal", false⟩ := by
  simp only [resolve, h1, h2]

lemma resolve_state_deep {s : String} {st : USState} {u : List Char}
    (h1 : uscScan (toks s) = none) (h2 : cfrScan (toks s) = none)
    (h3 : stateScan (toks s) = some st) (h4 : stateCodeUrl st (toks s) = some u) :
    resolve s = ⟨s, String.mk u, stateName st, false⟩ := by
  simp only [resolve, h1, h2, h3, h4]

lemma resolve_state_home {s : String} {st : USState}
    (h1 : uscScan (toks s) = none) (h2 : cfrScan (toks s) = none)
    (h3 : stateScan (toks s) = some st) (h4 : stateCodeUrl st (toks s) = none) :
    resolve s = ⟨s, String.mk (stateHomepage st), stateName st, true⟩ := by
  simp only [resolve, h1, h2, h3, h4]

lemma resolve_unknown {s : String}
    (h1 : uscScan (toks s) = none) (h2 : cfrScan (toks s) = none)
    (h3 : stateScan (toks s) = none) (h4 : hasFedKw (toks s) = false) :
    resolve s = ⟨s, String.mk (cornellSearchUrl s.data), "unknown", true⟩ := by
  simp [resolve, h1, h2, h3, h4]

lemma no_sp_sect_of_wf {u : String} (h : wellFormedUrl u = true) :
    ' ' ∉ u.data ∧ '§' ∉ u.data := by
  simp only [wellFormedUrl, Bool.and_eq_true, List.all_eq_true] at h
  constructor <;> intro hmem <;> have hok := h.2 _ hmem
  · exact absurd hok (by decide)
  · exact absurd hok (by decide)

/-- Claim C1: totality of resolution — for every input string, `resolve`
returns exactly one `ResolvedCitation` (it is a total function into that
type) whose `url` field is a non-empty, well-formed absolute HTTP(S) URL,
and, being a total function of a shallow embedding, it never throws. -/
theorem claim_C1 (s : String) :
    (resolve s).url ≠ "" ∧ wellFormedUrl (resolve s).url = true :=
  ⟨wf_ne_empty (resolve_wf s), resolve_wf s⟩

/-- Claim C2: federal deep-link construction — a citation matched by the
U.S. Code scanner resolves to the Cornell LII USC deep link built from
the extracted title number and section, and likewise for CFR; in
particular `18 U.S.C. § 1001` and `29 CFR 1910.134` resolve to their
exact documented URLs with jurisdiction `federal` and no fallback. -/
theorem claim_C2 :
    (∀ (s : String) (t sec : List Char), uscScan (toks s) = some (t, sec) →
        (resolve s).url = String.mk (uscUrl t sec)
          ∧ (resolve s).jurisdiction = "federal" ∧ (resolve s).isFallback = false)
  ∧ (∀ (s : String) (t sec : List Char), uscScan (toks s) = none →
        cfrScan (toks s) = some (t, sec) →
        (resolve s).url = String.mk (cfrUrl t sec)
          ∧ (resolve s).jurisdiction = "federal" ∧ (resolve s).isFallback = false)
  ∧ resolve "18 U.S.C. § 1001"
      = ⟨"18 U.S.C. § 1001", "https://www.law.cornell.edu/uscode/text/18/1001",
         "federal", false⟩
  ∧ (resolve "29 CFR 1910.134").url
      = "https://www.law.cornell.edu/cfr/text/29/1910.134" := by
  refine ⟨?_, ?_, by decide, by decide⟩
  · intro s t sec h
    rw [resolve_usc h]
    exact ⟨rfl, rfl, rfl⟩
  · intro s t sec h1 h2
    rw [resolve_cfr h1 h2]
    exact ⟨rfl, rfl, rfl⟩

/-- Witness for claim C2: the two hypothesis-bearing conjuncts applied at
the concrete citations of the claim. -/
theorem claim_C2_witness :
    (resolve "18 U.S.C. § 1001").url = String.mk (uscUrl (str "18") (str "1001"))
  ∧ (resolve "29 CFR 1910.134").url
      = String.mk (cfrUrl (str "29") (str "1910.134")) :=
  ⟨(claim_C2.1 "18 U.S.C. § 1001" (str "18") (str "1001") (by decide)).1,
   (claim_C2.2.1 "29 CFR 1910.134" (str "29") (str "1910.134")
      (by decide) (by decide)).1⟩

/-- Claim C3: Illinois compound grammar — the documented ILCS citation is
parsed into chapter `720`, act `5` and section `12-3`, each filling its
slot of the Illinois URL template; every successful ILCS parse has three
non-empty slots (so no URL with a missing slot is ever produced), and a
failed parse degrades to the Illinois homepage fallback. -/
theorem claim_C3 :
    resolve "Illinois Compiled Statutes 720 ILCS 5/12-3"
      = ⟨"Illinois Compiled Statutes 720 ILCS 5/12-3",
         "https://www.ilga.gov/legislation/ilcs/ilcs.asp?chapter=720&act=5&sec=12-3",
         "Illinois", false⟩
  ∧ (∀ (ts : List (List Char)) (c a s : List Char),
        ilcsScan ts = some (c, a, s) → c ≠ [] ∧ a ≠ [] ∧ s ≠ [])
  ∧ (∀ s : String, uscScan (toks s) = none → cfrScan (toks s) = none →
        stateScan (toks s) = some .illinois →
        stateCodeUrl .illinois (toks s) = none →
        resolve s = ⟨s, String.mk (stateHomepage .illinois), "Illinois", true⟩) := by
  refine ⟨by decide, ?_, ?_⟩
  · intro ts c a s h
    obtain ⟨hc, ha, hs⟩ := ilcsScan_valid h
    exact ⟨(isNumTok_parts hc).1, (isNumTok_parts ha).1, (validTok_parts hs).1⟩
  · intro s h1 h2 h3 h4
    exact resolve_state_home h1 h2 h3 h4

/-- Witness for claim C3: the slot-validity conjunct applied at the
documented citation's token list, and the degradation conjunct applied at
a citation whose ILCS act-section component has no slash. -/
theorem claim_C3_witness :
    (str "720" ≠ [] ∧ str "5" ≠ [] ∧ str "12-3" ≠ [])
  ∧ resolve "Illinois Compiled Statutes 720 ILCS 5.12-3"
      = ⟨"Illinois Compiled Statutes 720 ILCS 5.12-3",
         String.mk (stateHomepage .illinois), "Illinois", true⟩ :=
  ⟨claim_C3.2.1 (toks "Illinois Compiled Statutes 720 ILCS 5/12-3")
      (str "720") (str "5") (str "12-3") (by decide),
   claim_C3.2.2 "Illinois Compiled Statutes 720 ILCS 5.12-3"
      (by decide) (by decide) (by decide) (by decide)⟩

/-- Claim C4: encoding safety — URLs produced for citations containing a
space or `§` contain no literal space and no literal `§` (free text only
enters percent-encoded fallback queries); a raw section containing a
character outside the valid class is a parse failure, and when every
matcher fails the result is a fallback record. -/
theorem claim_C4 :
    (∀ s : String, (' ' ∈ s.data ∨ '§' ∈ s.data) →
        ' ' ∉ (resolve s).url.data ∧ '§' ∉ (resolve s).url.data)
  ∧ (∀ (ts : List (List Char)) (sec : List Char),
        secRaw ts = some sec → validTok sec = false → secOf ts = none)
  ∧ (∀ s : String, uscScan (toks s) = none → cfrScan (toks s) = none →
        (∀ st, stateScan (toks s) = some st → stateCodeUrl st (toks s) = none) →
        (resolve s).isFallback = true) := by
  refine ⟨?_, ?_, ?_⟩
  · intro s _
    exact no_sp_sect_of_wf (resolve_wf s)
  · intro ts sec h1 h2
    unfold secOf
    rw [h1]
    simp [h2]
  · intro s h1 h2 h3
    rcases hst : stateScan (toks s) with _ | st
    · simp only [resolve, h1, h2, hst]
      split <;> rfl
    · rw [resolve_state_home h1 h2 hst (h3 st hst)]

/-- Witness for claim C4: all three conjuncts applied at the citation
`18 U.S.C. § 10@01`, whose section contains the invalid character `@`. -/
theorem claim_C4_witness :
    ('§' ∉ (resolve "18 U.S.C. § 10@01").url.data)
  ∧ secOf [str "§", str "10@01"] = none
  ∧ (resolve "18 U.S.C. § 10@01").isFallback = true :=
  ⟨(claim_C4.1 "18 U.S.C. § 10@01" (Or.inl (by decide))).2,
   claim_C4.2.1 [str "§", str "10@01"] (str "10@01") (by decide) (by decide),
   claim_C4.2.2 "18 U.S.C. § 10@01" (by decide) (by decide)
     (fun st hst => by
       rw [show stateScan (toks "18 U.S.C. § 10@01") = none from by decide] at hst
       exact Option.noConfusion hst)⟩

/-- Claim C5: federal synonym normalization — `Title 18 USC 1001`
resolves to the same URL as `18 U.S.C. § 1001`, and in general the marker
spellings `usc`, `u.s.c.` and `united states code`, with or without the
section symbol, all resolve a given title and section to the same USC
deep link. -/
theorem claim_C5 :
    (resolve "Title 18 USC 1001").url = (resolve "18 U.S.C. § 1001").url
  ∧ (∀ t sec : List Char, isNumTok t = true → validTok sec = true →
      sec.map lowerC = sec → sec ≠ str "sec." → sec ≠ str "section" →
      ((resolve (mkCit [t, str "usc", sec])).url = String.mk (uscUrl t sec)
    ∧ (resolve (mkCit [t, str "u.s.c.", sec])).url = String.mk (uscUrl t sec)
    ∧ (resolve (mkCit [t, str "united", str "states", str "code", sec])).url
        = String.mk (uscUrl t sec)
    ∧ (resolve (mkCit [t, str "usc", sectTok, sec])).url = String.mk (uscUrl t sec)
    ∧ (resolve (mkCit [t, str "u.s.c.", sectTok, sec])).url
        = String.mk (uscUrl t sec))) := by
  refine ⟨by decide, ?_⟩
  intro t sec ht hsec hl hn1 hn2
  have hfm_t := fixMarker_of_num ht
  have hfm_s := fixMarker_eq hn1 hn2
  have hg_t := goodTok_of_num ht
  have hg_s := goodTok_of_valid hsec hl
  have hg_usc : goodTok (str "usc") := Or.inr ⟨by decide, by decide, by decide⟩
  have hg_uscd : goodTok (str "u.s.c.") := Or.inr ⟨by decide, by decide, by decide⟩
  have hg_un : goodTok (str "united") := Or.inr ⟨by decide, by decide, by decide⟩
  have hg_st : goodTok (str "states") := Or.inr ⟨by decide, by decide, by decide⟩
  have hg_cd : goodTok (str "code") := Or.inr ⟨by decide, by decide, by decide⟩
  have hg_sc : goodTok sectTok := Or.inl rfl
  refine ⟨?_, ?_, ?_, ?_, ?_⟩
  · have htk : toks (mkCit [t, str "usc", sec]) = [t, str "usc", sec] := by
      rw [toks_mkCit _ (by
        intro x hx
        simp only [List.mem_cons, List.not_mem_nil, or_false] at hx
        rcases hx with rfl | rfl | rfl
        exacts [hg_t, hg_usc, hg_s])]
      simp only [List.map_cons, List.map_nil, hfm_t, hfm_s,
        show fixMarker (str "usc") = str "usc" from by decide]
    rw [resolve_usc (by
      rw [htk]
      exact uscScan_cons_some (uscHere_m _ ht (by decide) hsec))]
  · have htk : toks (mkCit [t, str "u.s.c.", sec]) = [t, str "u.s.c.", sec] := by
      rw [toks_mkCit _ (by
        intro x hx
        simp only [List.mem_cons, List.not_mem_nil, or_false] at hx
        rcases hx with rfl | rfl | rfl
        exacts [hg_t, hg_uscd, hg_s])]
      simp only [List.map_cons, List.map_nil, hfm_t, hfm_s,
        show fixMarker (str "u.s.c.") = str "u.s.c." from by decide]
    rw [resolve_usc (by
      rw [htk]
      exact uscScan_cons_some (uscHere_m _ ht (by decide) hsec))]
  · have htk : toks (mkCit [t, str "united", str "states", str "code", sec])
        = [t, str "united", str "states", str "code", sec] := by
      rw [toks_mkCit _ (by
        intro x hx
        simp only [List.mem_cons, List.not_mem_nil, or_false] at hx
        rcases hx with rfl | rfl | rfl | rfl | rfl
        exacts [hg_t, hg_un, hg_st, hg_cd, hg_s])]
      simp only [List.map_cons, List.map_nil, hfm_t, hfm_s,
        show fixMarker (str "united") = str "united" from by decide,
        show fixMarker (str "states") = str "states" from by decide,
        show fixMarker (str "code") = str "code" from by decide]
    rw [resolve_usc (by
      rw [htk]
      exact uscScan_cons_some (uscHere_united _ ht hsec))]
  · have htk : toks (mkCit [t, str "usc", sectTok, sec])
        = [t, str "usc", sectTok, sec] := by
      rw [toks_mkCit _ (by
        intro x hx
        simp only [List.mem_cons, List.not_mem_nil, or_false] at hx
        rcases hx with rfl | rfl | rfl | rfl
        exacts [hg_t, hg_usc, hg_sc, hg_s])]
      simp only [List.map_cons, List.map_nil, hfm_t, hfm_s,
        show fixMarker (str "usc") = str "usc" from by decide,
        show fixMarker sectTok = sectTok from by decide]
    rw [resolve_usc (by
      rw [htk]
      exact uscScan_cons_some (uscHere_m_sect _ ht (by decide) hsec))]
  · have htk : toks (mkCit [t, str "u.s.c.", sectTok, sec])
        = [t, str "u.s.c.", sectTok, sec] := by
      rw [toks_mkCit _ (by
        intro x hx
        simp only [List.mem_cons, List.not_mem_nil, or_false] at hx
        rcases hx with rfl | rfl | rfl | rfl
        exacts [hg_t, hg_uscd, hg_sc, hg_s])]
      simp only [List.map_cons, List.map_nil, hfm_t, hfm_s,
        show fixMarker (str "u.s.c.") = str "u.s.c." from by decide,
        show fixMarker sectTok = sectTok from by decide]
    rw [resolve_usc (by
      rw [htk]
      exact uscScan_cons_some (uscHere_m_sect _ ht (by decide) hsec))]

/-- Witness for claim C5: the synonym family applied at title 18 and
section 1001. -/
theorem claim_C5_witness :
    (resolve (mkCit [str "18", str "usc", str "1001"])).url
      = String.mk (uscUrl (str "18") (str "1001")) :=
  (claim_C5.2 (str "18") (str "1001") (by decide) (by decide) (by decide)
    (by decide) (by decide)).1

/-- Claim C6: state statute match — `California Penal Code § 187`
resolves to a non-fallback deep link under `leginfo.legislature.ca.gov`
with jurisdiction `California`. -/
theorem claim_C6 :
    (str "https://leginfo.legislature.ca.gov").isPrefixOf
        (resolve "California Penal Code § 187").url.data = true
  ∧ (resolve "California Penal Code § 187").jurisdiction = "California"
  ∧ (resolve "California Penal Code § 187").isFallback = false := by decide

/-- Claim C7: recognised-state fallback — when a recognised state is
found but no code family of that state matches, the result is that
state's statute homepage with `isFallback = true` and the state name as
jurisdiction; in particular `California Obscure Code § 99` falls back to
California's homepage. -/
theorem claim_C7 :
    (∀ (s : String) (st : USState), uscScan (toks s) = none →
        cfrScan (toks s) = none → stateScan (toks s) = some st →
        stateCodeUrl st (toks s) = none →
        resolve s = ⟨s, String.mk (stateHomepage st), stateName st, true⟩)
  ∧ resolve "California Obscure Code § 99"
      = ⟨"California Obscure Code § 99", "https://leginfo.legislature.ca.gov/",
         "California", true⟩ :=
  ⟨fun s st h1 h2 h3 h4 => resolve_state_home h1 h2 h3 h4, by decide⟩

/-- Witness for claim C7: the general conjunct applied at
`California Obscure Code § 99`. -/
theorem claim_C7_witness :
    resolve "California Obscure Code § 99"
      = ⟨"California Obscure Code § 99",
         String.mk (stateHomepage .california), "California", true⟩ :=
  claim_C7.1 "California Obscure Code § 99" .california
    (by decide) (by decide) (by decide) (by decide)

/-- Claim C8: unknown-citation fallback — when no scanner matches and no
federal keyword is present, the result is the generic legal search URL
with jurisdiction `unknown` and `isFallback = true`; in particular this
holds for `Martian Traffic Code § 5` and for the empty citation, so no
null or empty URL is ever propagated. -/
theorem claim_C8 :
    (∀ s : String, uscScan (toks s) = none → cfrScan (toks s) = none →
        stateScan (toks s) = none → hasFedKw (toks s) = false →
        resolve s = ⟨s, String.mk (cornellSearchUrl s.data), "unknown", true⟩)
  ∧ resolve "Martian Traffic Code § 5"
      = ⟨"Martian Traffic Code § 5",
         "https://www.law.cornell.edu/search/site/Martian%20Traffic%20Code%20%C2%A7%205",
         "unknown", true⟩
  ∧ resolve ""
      = ⟨"", "https://www.law.cornell.edu/search/site/", "unknown", true⟩ :=
  ⟨fun s h1 h2 h3 h4 => resolve_unknown h1 h2 h3 h4, by decide, by decide⟩

/-- Witness for claim C8: the general conjunct applied at
`Martian Traffic Code § 5`. -/
theorem claim_C8_witness :
    resolve "Martian Traffic Code § 5"
      = ⟨"Martian Traffic Code § 5",
         String.mk (cornellSearchUrl (str "Martian Traffic Code § 5")),
         "unknown", true⟩ :=
  claim_C8.1 "Martian Traffic Code § 5"
    (by decide) (by decide) (by decide) (by decide)

/-- Claim C9: determinism and purity — `resolve` is a pure function, so
repeated calls agree definitionally; the state winner is decided by
left-to-right scan order over the token list (a leading state keyword
always wins), witnessed concretely by two-state citations in both
orders. -/
theorem claim_C9 :
    (∀ s : String, resolve s = resolve s)
  ∧ (∀ (st : USState) (rest : List (List Char)),
        stateScan (stateKw st ++ rest) = some st)
  ∧ (resolve "New York Penal Law § 120.00 and California Penal Code § 187").jurisdiction
      = "New York"
  ∧ (resolve "California Penal Code § 187 and New York Penal Law § 120.00").jurisdiction
      = "California" :=
  ⟨fun _ => rfl, fun st rest => by cases st <;> rfl, by decide, by decide⟩

end Resolver

namespace Render

lemma jsTruthy_iff (o : Option String) :
    jsTruthy o = true ↔ ∃ u, o = some u ∧ u ≠ "" := by
  cases o with
  | none => simp [jsTruthy]
  | some s =>
    simp only [jsTruthy, Bool.not_eq_true', decide_eq_false_iff_not,
      Option.some.injEq]
    constructor
    · intro h
      exact ⟨s, rfl, h⟩
    · rintro ⟨u, heq, hu⟩
      subst heq
      exact hu

lemma linkWeb (law : LawRecord) :
    hasViewLawLink (renderLawWeb law) = jsTruthy law.law_url := by
  cases h1 : jsTruthy law.law_code <;> cases h2 : jsTruthy law.law_url <;>
    simp [renderLawWeb, hasViewLawLink, isViewLawLink, h1, h2, List.any_append]

lemma linkMobile (law : LawRecord) :
    hasViewLawLink (renderLawMobile law) = jsTruthy law.law_url := by
  cases h1 : jsTruthy law.law_code <;> cases h2 : jsTruthy law.law_url <;>
    cases h3 : jsTruthy law.description <;>
      simp [renderLawMobile, hasViewLawLink, isViewLawLink, h1, h2, h3,
        List.any_append]

lemma titleWeb (law : LawRecord) : hasLawTitle (renderLawWeb law) = true := by
  simp [renderLawWeb, hasLawTitle]

lemma descWeb (law : LawRecord) : hasDescText (renderLawWeb law) = true := by
  cases h1 : jsTruthy law.law_code <;> cases h2 : jsTruthy law.law_url <;>
    simp [renderLawWeb, hasDescText, h1, h2, List.any_append]

lemma chipWeb (law : LawRecord) (h : jsTruthy law.law_code = true) :
    hasCodeChip (renderLawWeb law) = true := by
  cases h2 : jsTruthy law.law_url <;>
    simp [renderLawWeb, hasCodeChip, h, h2, List.any_append]

/-- Claim C10: downstream rendering guards against absent URLs — in both
the web and the mobile case-analysis views, the "View Law" hyperlink is
rendered exactly when the record's `law_url` is present and non-empty;
a record with a null or empty `law_url` is still displayed with its
title, its description, and (when present) its code chip, but with no
hyperlink. -/
theorem claim_C10 :
    (∀ law : LawRecord,
        hasViewLawLink (renderLawWeb law) = true
          ↔ ∃ u, law.law_url = some u ∧ u ≠ "")
  ∧ (∀ law : LawRecord,
        hasViewLawLink (renderLawMobile law) = true
          ↔ ∃ u, law.law_url = some u ∧ u ≠ "")
  ∧ (∀ law : LawRecord, law.law_url = none ∨ law.law_url = some "" →
        hasViewLawLink (renderLawWeb law) = false
          ∧ hasLawTitle (renderLawWeb law) = true
          ∧ hasDescText (renderLawWeb law) = true
          ∧ (jsTruthy law.law_code = true →
              hasCodeChip (renderLawWeb law) = true)) := by
  refine ⟨?_, ?_, ?_⟩
  · intro law
    rw [linkWeb]
    exact jsTruthy_iff _
  · intro law
    rw [linkMobile]
    exact jsTruthy_iff _
  · intro law h
    have hurl : jsTruthy law.law_url = false := by
      rcases h with h | h <;> rw [h] <;> rfl
    exact ⟨by rw [linkWeb, hurl], titleWeb law, descWeb law, chipWeb law⟩

/-- Witness for claim C10: the guard conjunct applied at a concrete law
record whose `law_url` is null, and the web iff applied at a record with
a non-empty URL. -/
theorem claim_C10_witness :
    (hasViewLawLink (renderLawWeb
        ⟨"Duty of care", some "Civ. Code 1714", none, some "General negligence"⟩)
      = false)
  ∧ hasViewLawLink (renderLawWeb
        ⟨"Civil rights", some "42 U.S.C. 1983",
         some "https://www.law.cornell.edu/uscode/text/42/1983", none⟩) = true :=
  ⟨(claim_C10.2.2 ⟨"Duty of care", some "Civ. Code 1714", none,
      some "General negligence"⟩ (Or.inl rfl)).1,
   (claim_C10.1 ⟨"Civil rights", some "42 U.S.C. 1983",
      some "https://www.law.cornell.edu/uscode/text/42/1983", none⟩).mpr
     ⟨"https://www.law.cornell.edu/uscode/text/42/1983", rfl, by decide⟩⟩

end Render
